import Mathlib

/-!
# Verification of the kcdshop admin route and client-hint utilities

This file gives a shallow embedding of the admin route
(`packages/workshop-app/app/routes/admin/index.tsx`: `loader`, `action`,
`AdminLayout`) and of the client-hints module (`clientHints`, `getCookieValue`,
`getHints`), together with theorems about the embedded definitions.

JavaScript `Map`s and plain string-keyed records are both embedded as
association lists (`List (String × α)`) whose iteration order is insertion
order; `Map.set` / property assignment updates an existing key in place and
appends a fresh key at the end, which is exactly JavaScript's behaviour for
(non-integer-like) string keys.  Values that can be `undefined` or `null`
are embedded with `Option`.
-/

namespace KcdAdmin

/-- An app record from the workshop content catalog (`getApps`).  The admin
route only looks at `name`; the other fields ride along as opaque data. -/
structure App where
  name : String
  displayName : String
  fullPath : String
deriving DecidableEq, Repr

/-- A spawned child process as seen by the admin loader: only its `pid` is
read, and `pid` is `undefined` (here `none`) until the spawn completes. -/
structure ChildProcess where
  pid : Option Nat
deriving DecidableEq, Repr

/-- A dev-server registry entry `{ port, process, color }`, the value type of
`getProcesses().devProcesses`. -/
structure DevProcessEntry where
  port : Nat
  process : ChildProcess
  color : String
deriving DecidableEq, Repr

/-- A test registry entry `{ process, exitCode }`, the value type of
`getProcesses().testProcesses`; the process may be absent (`process?.pid`)
and `exitCode` is `number | null`. -/
structure TestProcessEntry where
  process : Option ChildProcess
  exitCode : Option Int
deriving DecidableEq, Repr

/-- A JavaScript value as it appears in the loader's result objects. -/
inductive JsValue where
  | num (n : Int)
  | str (s : String)
  | undefined
  | null
deriving DecidableEq, Repr

/-- Embed an optional number (`number | undefined`). -/
def jsOfOptNat : Option Nat → JsValue
  | some n => .num n
  | none => .undefined

/-- Embed a `number | null` value. -/
def jsOfOptInt : Option Int → JsValue
  | some n => .num n
  | none => .null

/-- `Map.set` / record property assignment on an association list: update an
existing key in place (keeping its position), append a fresh key at the end. -/
def mapSet (m : List (String × α)) (k : String) (v : α) : List (String × α) :=
  if m.any (fun p => p.1 == k) then
    m.map (fun p => if p.1 == k then (k, v) else p)
  else
    m ++ [(k, v)]

/-- `Map.delete` on an association list. -/
def mapDelete (m : List (String × α)) (k : String) : List (String × α) :=
  m.filter (fun p => !(p.1 == k))

/-- Modelled from the spec: the Process Registry's mutating operations
(`process-manager.server.ts` is not among the sources, only its caller is).
`upsert(appName, handle)` "replaces any existing entry" and `remove(appName)`
"deletes entry"; the registry is a JS `Map`, so iteration order is insertion
order. -/
inductive RegOp (α : Type) where
  | upsert (appName : String) (handle : α)
  | remove (appName : String)

/-- Apply one registry operation. -/
def applyOp (m : List (String × α)) : RegOp α → List (String × α)
  | .upsert k v => mapSet m k v
  | .remove k => mapDelete m k

/-- Apply a sequence of registry operations. -/
def applyOps (ops : List (RegOp α)) (m : List (String × α)) : List (String × α) :=
  ops.foldl applyOp m

/-- The shared in-memory state the admin route reads and writes: the two
process registries and the port-allocator's used-port set (owned by the
process manager), the process-wide `global.__inspector_open__` flag
(`boolean | undefined`), and a log of how often the external inspector's
`open()` / `close()` were invoked. -/
structure OrchestratorState where
  devProcesses : List (String × DevProcessEntry)
  testProcesses : List (String × TestProcessEntry)
  usedPorts : List Nat
  inspectorFlag : Option Bool
  inspectorOpens : Nat
  inspectorCloses : Nat
deriving DecidableEq, Repr

/-- Modelled from the spec: `getProcesses()` (from
`process-manager.server.ts`, not among the sources) hands back the two
registries; the Status Query Service "only reads the Registry and Allocator;
it never mutates them". -/
def getProcesses (s : OrchestratorState) :
    (List (String × DevProcessEntry) × List (String × TestProcessEntry)) × OrchestratorState :=
  ((s.devProcesses, s.testProcesses), s)

/-- The JS filter callback used by the loader on the app catalog:
`apps.filter((a, i, ar) => ar.findIndex(b => a.name === b.name) === i)`.
`Array.prototype.filter` passes the element index, embedded here as an
explicit counter. -/
def filterWithIndex (p : Nat → App → Bool) : Nat → List App → List App
  | _, [] => []
  | i, a :: l => if p i a then a :: filterWithIndex p (i + 1) l else filterWithIndex p (i + 1) l

/-- The loader's deduplication of the app catalog: keep the element at index
`i` exactly when the first index holding its name is `i`. -/
def dedupApps (apps : List App) : List App :=
  filterWithIndex (fun i a => apps.findIdx (fun b => a.name == b.name) == i) 0 apps

/-- The object literal `{ port, pid: process.pid, color }` built by the
loader for one dev-server registry entry, with its fields in source order. -/
def devEntryObject (e : DevProcessEntry) : List (String × JsValue) :=
  [("port", .num e.port), ("pid", jsOfOptNat e.process.pid), ("color", .str e.color)]

/-- The object literal `{ pid: process?.pid, exitCode }` built by the loader
for one test registry entry. -/
def testEntryObject (e : TestProcessEntry) : List (String × JsValue) :=
  [("pid", jsOfOptNat (e.process.bind ChildProcess.pid)), ("exitCode", jsOfOptInt e.exitCode)]

/-- The loader's `for`-loop that copies one registry into a fresh record
(`processes[name] = {...}` / `testProcesses[name] = {...}`). -/
def buildRecord (f : α → List (String × JsValue)) (entries : List (String × α)) :
    List (String × List (String × JsValue)) :=
  entries.foldl (fun acc p => mapSet acc p.1 (f p.2)) []

/-- The JSON payload returned by the admin loader. -/
structure LoaderData where
  apps : List App
  processes : List (String × List (String × JsValue))
  testProcesses : List (String × List (String × JsValue))
  inspectorRunning : Option Bool
deriving DecidableEq, Repr

/-- The admin `loader`: deduplicate the app catalog by name, copy both
registries into records via `getProcesses()`, and return the payload together
with the (threaded) shared state.  `getApps` is an external collaborator, so
the catalog arrives as the `apps` argument; timing headers and the
`json(...)` wrapper carry no data and are dropped. -/
def loader (apps : List App) (s : OrchestratorState) : LoaderData × OrchestratorState :=
  let appsDeduped := dedupApps apps
  let (r1, s1) := getProcesses s
  let processes := buildRecord devEntryObject r1.1
  let (r2, s2) := getProcesses s1
  let testRecord := buildRecord testEntryObject r2.2
  ({ apps := appsDeduped, processes := processes, testProcesses := testRecord,
     inspectorRunning := s2.inspectorFlag }, s2)

/-- The `json({ success: true })` payload of the admin `action`. -/
structure ActionResponse where
  success : Bool
deriving DecidableEq, Repr

/-- JS template-literal rendering of `formData.get('intent')` in the
`Unknown intent: ${intent}` message (`null` prints as `"null"`). -/
def jsToString : Option String → String
  | none => "null"
  | some v => v

/-- The admin `action`.  `intent` is `formData.get('intent')`
(`string | null`).  `'inspect'` sets the global flag and invokes the external
inspector's `open()` only when the flag is not already truthy (`!flag`);
`'stop-inspect'` clears it and invokes `close()` only when the flag is truthy;
both return `{ success: true }` either way.  Any other intent throws
`Unknown intent: ...`.  The state after the call is returned alongside. -/
def action (s : OrchestratorState) (intent : Option String) :
    Except String ActionResponse × OrchestratorState :=
  if intent = some "inspect" then
    if s.inspectorFlag ≠ some true then
      (Except.ok { success := true },
        { s with inspectorFlag := some true, inspectorOpens := s.inspectorOpens + 1 })
    else
      (Except.ok { success := true }, s)
  else if intent = some "stop-inspect" then
    if s.inspectorFlag = some true then
      (Except.ok { success := true },
        { s with inspectorFlag := some false, inspectorCloses := s.inspectorCloses + 1 })
    else
      (Except.ok { success := true }, s)
  else
    (Except.error ("Unknown intent: " ++ jsToString intent), s)

/-- The status dot `AdminLayout` renders for an app:
`data.processes[app.name] ? <Pinger status="running"/> : <Pinger status="stopped"/>`.
Record values are objects, hence truthy, so this is a key-presence test. -/
def pingerStatus (d : LoaderData) (appName : String) : String :=
  if d.processes.any (fun p => p.1 == appName) then "running" else "stopped"

/-- Boolean test that two lists of field names contain the same names
(mutual inclusion, ignoring order). -/
def sameFieldSet (xs ys : List String) : Bool :=
  xs.all (fun x => ys.contains x) && ys.all (fun y => xs.contains y)

end KcdAdmin

namespace ClientHints

/-- One entry of the `clientHints` object: its cookie name, fallback, and
`transform` function. -/
structure HintDef where
  cookieName : String
  fallback : String
  transform : Option String → String

/-- The `theme` hint: cookie `KCDShop_CH-prefers-color-scheme`,
`transform(value) = value === 'dark' ? 'dark' : 'light'`. -/
def themeHint : HintDef where
  cookieName := "KCDShop_CH-prefers-color-scheme"
  fallback := "light"
  transform := fun value => if value = some "dark" then "dark" else "light"

/-- The `reducedMotion` hint: cookie `KCDShop_CH-reduced-motion`,
`transform(value) = value === 'reduce' ? 'reduce' : 'no-preference'`. -/
def reducedMotionHint : HintDef where
  cookieName := "KCDShop_CH-reduced-motion"
  fallback := "no-preference"
  transform := fun value => if value = some "reduce" then "reduce" else "no-preference"

/-- `Object.entries(clientHints)` in source order. -/
def clientHintsEntries : List (String × HintDef) :=
  [("theme", themeHint), ("reducedMotion", reducedMotionHint)]

/-- The cookie-string scan inside `getCookieValue`: split on `';'`, trim each
part, find the first part starting with `cookieName + '='`, take the segment
after the first `'='` (`split('=')[1]`), and map a missing result to `null`
(`value ?? null`). -/
def cookieLookup (cookieString cookieName : String) : Option String :=
  (((cookieString.splitOn ";").map String.trim).find?
      (fun c => c.startsWith (cookieName ++ "="))).bind
    (fun c => (c.splitOn "=").get? 1)

/-- `getCookieValue(cookieString, name)`: looks the hint up in `clientHints`
and throws `Unknown client hint: ...` when absent, otherwise scans the cookie
string. -/
def getCookieValue (cookieString name : String) : Except String (Option String) :=
  match clientHintsEntries.lookup name with
  | none => Except.error ("Unknown client hint: " ++ name)
  | some hint => Except.ok (cookieLookup cookieString hint.cookieName)

/-- `getHints`: reduce over `Object.entries(clientHints)`, setting
`acc[name] = hint.transform(getCookieValue(cookieString, name))`; the result
record is an association list in insertion order. -/
def getHints (cookieString : String) : Except String (List (String × String)) :=
  clientHintsEntries.foldlM
    (fun acc p => do
      let v ← getCookieValue cookieString p.1
      pure (KcdAdmin.mapSet acc p.1 (p.2.transform v)))
    []

end ClientHints

namespace KcdAdmin

/-! Concrete sample data used to evaluate the definitions on closed inputs. -/

/-- A sample catalog app. -/
def appOne : App := { name := "app-a", displayName := "App A", fullPath := "/ws/app-a" }

/-- A second sample catalog app with a distinct name. -/
def appTwo : App := { name := "app-b", displayName := "App B", fullPath := "/ws/app-b" }

/-- A duplicate catalog record carrying the same name as `appOne`. -/
def appOneDup : App := { name := "app-a", displayName := "App A again", fullPath := "/ws/app-a2" }

/-- The empty orchestrator state. -/
def sEmpty : OrchestratorState :=
  { devProcesses := [], testProcesses := [], usedPorts := [], inspectorFlag := none,
    inspectorOpens := 0, inspectorCloses := 0 }

/-- A dev-server entry whose spawn has completed (pid assigned). -/
def devEntrySample : DevProcessEntry :=
  { port := 3000, process := { pid := some 123 }, color := "blue" }

/-- A finished test-run entry. -/
def testEntrySample : TestProcessEntry :=
  { process := some { pid := some 200 }, exitCode := some 0 }

/-- A state with one running dev server and one finished test run for `app-a`. -/
def sSample : OrchestratorState :=
  { devProcesses := [("app-a", devEntrySample)], testProcesses := [("app-a", testEntrySample)],
    usedPorts := [3000], inspectorFlag := none, inspectorOpens := 0, inspectorCloses := 0 }

/-- A dev-server entry whose spawn is still mid-flight: no pid yet. -/
def devEntryMidflight : DevProcessEntry :=
  { port := 3001, process := { pid := none }, color := "green" }

/-- A state in which `app-a`'s spawn is mid-flight. -/
def sMidflight : OrchestratorState :=
  { devProcesses := [("app-a", devEntryMidflight)], testProcesses := [], usedPorts := [3001],
    inspectorFlag := none, inspectorOpens := 0, inspectorCloses := 0 }

/-! Association-list lemmas for `mapSet` / `mapDelete` / `buildRecord`. -/

theorem keys_mapSet (m : List (String × α)) (k : String) (v : α) :
    (mapSet m k v).map Prod.fst =
      if m.any (fun p => p.1 == k) then m.map Prod.fst else m.map Prod.fst ++ [k] := by
  unfold mapSet
  split
  · rw [List.map_map]
    refine List.map_congr_left fun p _ => ?_
    by_cases h : p.1 == k
    · simp only [Function.comp_apply, if_pos h]
      exact (eq_of_beq h).symm
    · have h' : p.1 ≠ k := fun hek => h (by simp [hek])
      simp [Function.comp_apply, h']
  · simp

theorem nodup_keys_mapSet (m : List (String × α)) (k : String) (v : α)
    (h : (m.map Prod.fst).Nodup) : ((mapSet m k v).map Prod.fst).Nodup := by
  rw [keys_mapSet]
  split
  · exact h
  · next hany =>
    rw [List.nodup_append]
    refine ⟨h, List.nodup_singleton k, ?_⟩
    intro x hx hk
    rw [List.mem_singleton] at hk
    subst hk
    obtain ⟨p, hp, hpk⟩ := List.mem_map.1 hx
    exact hany (List.any_eq_true.2 ⟨p, hp, by simp [hpk]⟩)

theorem nodup_keys_mapDelete (m : List (String × α)) (k : String)
    (h : (m.map Prod.fst).Nodup) : ((mapDelete m k).map Prod.fst).Nodup :=
  (((List.filter_sublist m).map Prod.fst).nodup h : _)

theorem nodup_keys_applyOp (m : List (String × α)) (op : RegOp α)
    (h : (m.map Prod.fst).Nodup) : ((applyOp m op).map Prod.fst).Nodup := by
  cases op with
  | upsert k v => exact nodup_keys_mapSet m k v h
  | remove k => exact nodup_keys_mapDelete m k h

theorem nodup_keys_applyOps (ops : List (RegOp α)) :
    ∀ m : List (String × α), (m.map Prod.fst).Nodup →
      ((applyOps ops m).map Prod.fst).Nodup := by
  induction ops with
  | nil => intro m h; exact h
  | cons op t ih =>
    intro m h
    exact ih _ (nodup_keys_applyOp m op h)

theorem nodup_keys_foldl_mapSet (f : α → List (String × JsValue)) (entries : List (String × α)) :
    ∀ acc : List (String × List (String × JsValue)), (acc.map Prod.fst).Nodup →
      ((entries.foldl (fun acc p => mapSet acc p.1 (f p.2)) acc).map Prod.fst).Nodup := by
  induction entries with
  | nil => intro acc h; exact h
  | cons q t ih =>
    intro acc h
    exact ih _ (nodup_keys_mapSet acc q.1 (f q.2) h)

theorem nodup_keys_buildRecord (f : α → List (String × JsValue)) (entries : List (String × α)) :
    ((buildRecord f entries).map Prod.fst).Nodup :=
  nodup_keys_foldl_mapSet f entries [] (by simp)

theorem mapSet_of_not_mem (m : List (String × α)) (k : String) (v : α)
    (h : k ∉ m.map Prod.fst) : mapSet m k v = m ++ [(k, v)] := by
  have hc : ¬(m.any (fun p => p.1 == k) = true) := by
    intro hc
    obtain ⟨p, hp, hpk⟩ := List.any_eq_true.1 hc
    exact h (List.mem_map.2 ⟨p, hp, eq_of_beq hpk⟩)
  simp [mapSet, hc]

theorem foldl_mapSet_eq_append (f : α → List (String × JsValue)) :
    ∀ (entries : List (String × α)) (acc : List (String × List (String × JsValue))),
      (entries.map Prod.fst).Nodup →
      (∀ k ∈ entries.map Prod.fst, k ∉ acc.map Prod.fst) →
      entries.foldl (fun a q => mapSet a q.1 (f q.2)) acc =
        acc ++ entries.map (fun q => (q.1, f q.2)) := by
  intro entries
  induction entries with
  | nil => intro acc _ _; simp
  | cons q t ih =>
    intro acc hnd hdis
    have hq1 : q.1 ∉ acc.map Prod.fst := hdis q.1 (by simp)
    have hnd' : (t.map Prod.fst).Nodup := by
      simp only [List.map_cons, List.nodup_cons] at hnd
      exact hnd.2
    have hq2 : q.1 ∉ t.map Prod.fst := by
      simp only [List.map_cons, List.nodup_cons] at hnd
      exact hnd.1
    have hdis' : ∀ k ∈ t.map Prod.fst, k ∉ (acc ++ [(q.1, f q.2)]).map Prod.fst := by
      intro k hk
      simp only [List.map_append, List.mem_append]
      rintro (hka | hkq)
      · exact hdis k (by simp [hk]) hka
      · simp only [List.map_cons, List.map_nil, List.mem_singleton] at hkq
        subst hkq
        exact hq2 hk
    simp only [List.foldl_cons]
    rw [mapSet_of_not_mem acc q.1 (f q.2) hq1, ih (acc ++ [(q.1, f q.2)]) hnd' hdis']
    simp

theorem buildRecord_eq_map (f : α → List (String × JsValue)) (entries : List (String × α))
    (h : (entries.map Prod.fst).Nodup) :
    buildRecord f entries = entries.map (fun q => (q.1, f q.2)) := by
  have := foldl_mapSet_eq_append f entries [] h (by intro k _; simp)
  simpa [buildRecord] using this

theorem mem_mapSet_values {P : β → Prop} (m : List (String × β)) (k : String) (v : β)
    (hm : ∀ p ∈ m, P p.2) (hv : P v) : ∀ p ∈ mapSet m k v, P p.2 := by
  intro p hp
  unfold mapSet at hp
  split at hp
  · obtain ⟨q, hq, rfl⟩ := List.mem_map.1 hp
    by_cases h : q.1 == k
    · rw [if_pos h]
      exact hv
    · rw [if_neg h]
      exact hm q hq
  · rcases List.mem_append.1 hp with h | h
    · exact hm p h
    · rw [List.mem_singleton] at h
      subst h
      exact hv

theorem buildRecord_values {P : List (String × JsValue) → Prop} (f : α → List (String × JsValue))
    (hf : ∀ x, P (f x)) (entries : List (String × α)) :
    ∀ p ∈ buildRecord f entries, P p.2 := by
  suffices h : ∀ (es : List (String × α)) (acc : List (String × List (String × JsValue))),
      (∀ p ∈ acc, P p.2) →
      ∀ p ∈ es.foldl (fun a q => mapSet a q.1 (f q.2)) acc, P p.2 by
    exact h entries [] (by simp)
  intro es
  induction es with
  | nil => intro acc hacc; simpa using hacc
  | cons q t ih =>
    intro acc hacc
    simp only [List.foldl_cons]
    exact ih _ (mem_mapSet_values acc q.1 (f q.2) hacc (hf q.2))

/-! Lemmas about the loader's index-based deduplication filter. -/

theorem filterWithIndex_congr (p q : Nat → App → Bool) (h : ∀ i a, p i a = q i a) :
    ∀ (i : Nat) (l : List App), filterWithIndex p i l = filterWithIndex q i l := by
  intro i l
  induction l generalizing i with
  | nil => rfl
  | cons a t ih => simp only [filterWithIndex, h, ih]

theorem filterWithIndex_succ (p : Nat → App → Bool) :
    ∀ (l : List App) (i : Nat),
      filterWithIndex p (i + 1) l = filterWithIndex (fun j a => p (j + 1) a) i l := by
  intro l
  induction l with
  | nil => intro i; rfl
  | cons a t ih =>
    intro i
    simp only [filterWithIndex]
    rw [ih (i + 1)]

theorem filterWithIndex_and_filter (p : Nat → App → Bool) (q : App → Bool) :
    ∀ (l : List App) (i : Nat),
      filterWithIndex (fun j a => q a && p j a) i l = (filterWithIndex p i l).filter q := by
  intro l
  induction l with
  | nil => intro i; rfl
  | cons a t ih =>
    intro i
    simp only [filterWithIndex]
    by_cases hq : q a = true
    · by_cases hp : p i a = true
      · simp [hq, hp, List.filter_cons, ih]
      · simp [hq, hp, List.filter_cons, ih]
    · by_cases hp : p i a = true
      · simp [hq, hp, List.filter_cons, ih]
      · simp [hq, hp, List.filter_cons, ih]

theorem dedupApps_cons (a : App) (l : List App) :
    dedupApps (a :: l) = a :: (dedupApps l).filter (fun b => !(b.name == a.name)) := by
  have hpt : ∀ (j : Nat) (x : App),
      (((a :: l).findIdx fun b => x.name == b.name) == j + 1) =
        ((!(x.name == a.name)) && ((l.findIdx fun b => x.name == b.name) == j)) := by
    intro j x
    simp only [List.findIdx_cons]
    cases h : x.name == a.name <;> simp
  have hhead : (((a :: l).findIdx fun b => a.name == b.name) == 0) = true := by
    simp only [List.findIdx_cons]
    simp
  have hstep :
      filterWithIndex (fun i x => ((a :: l).findIdx fun b => x.name == b.name) == i) 0 (a :: l) =
        a :: filterWithIndex
          (fun i x => ((a :: l).findIdx fun b => x.name == b.name) == i) 1 l := by
    simp [filterWithIndex, hhead]
  have htail :
      filterWithIndex (fun i x => ((a :: l).findIdx fun b => x.name == b.name) == i) 1 l =
        (filterWithIndex (fun i x => (l.findIdx fun b => x.name == b.name) == i) 0 l).filter
          (fun b => !(b.name == a.name)) := by
    calc
      filterWithIndex (fun i x => ((a :: l).findIdx fun b => x.name == b.name) == i) 1 l =
          filterWithIndex
            (fun j x => ((a :: l).findIdx fun b => x.name == b.name) == j + 1) 0 l :=
        filterWithIndex_succ _ l 0
      _ = filterWithIndex
            (fun j x => (!(x.name == a.name)) && ((l.findIdx fun b => x.name == b.name) == j))
            0 l := filterWithIndex_congr _ _ hpt 0 l
      _ = (filterWithIndex (fun i x => (l.findIdx fun b => x.name == b.name) == i) 0 l).filter
            (fun b => !(b.name == a.name)) := filterWithIndex_and_filter _ _ l 0
  unfold dedupApps
  rw [hstep, htail]

theorem nodup_names_dedupApps (l : List App) : ((dedupApps l).map App.name).Nodup := by
  induction l with
  | nil => simp [dedupApps, filterWithIndex]
  | cons a t ih =>
    rw [dedupApps_cons]
    simp only [List.map_cons, List.nodup_cons]
    constructor
    · intro hmem
      obtain ⟨b, hb, hbname⟩ := List.mem_map.1 hmem
      have hq := (List.mem_filter.1 hb).2
      simp only [Bool.not_eq_eq_eq_not, Bool.not_true, beq_eq_false_iff_ne, ne_eq] at hq
      exact hq hbname
    · exact ((List.filter_sublist (dedupApps t)).map App.name).nodup ih

theorem name_mem_dedupApps (l : List App) :
    ∀ x ∈ l, x.name ∈ (dedupApps l).map App.name := by
  induction l with
  | nil => intro x hx; cases hx
  | cons a t ih =>
    intro x hx
    rw [dedupApps_cons, List.map_cons]
    rcases List.mem_cons.1 hx with rfl | hxt
    · exact List.mem_cons_self _ _
    · by_cases hname : x.name = a.name
      · rw [hname]
        exact List.mem_cons_self _ _
      · apply List.mem_cons_of_mem
        obtain ⟨b, hb, hbname⟩ := List.mem_map.1 (ih x hxt)
        refine List.mem_map.2 ⟨b, List.mem_filter.2 ⟨hb, ?_⟩, hbname⟩
        simp [hbname, hname]

theorem dedupApps_keeps_first (l : List App) :
    ∀ b ∈ dedupApps l, l[l.findIdx (fun x => b.name == x.name)]? = some b := by
  induction l with
  | nil => intro b hb; simp [dedupApps, filterWithIndex] at hb
  | cons a t ih =>
    intro b hb
    rw [dedupApps_cons] at hb
    rcases List.mem_cons.1 hb with rfl | hbf
    · have hzero : (b :: t).findIdx (fun x => b.name == x.name) = 0 := by
        simp only [List.findIdx_cons]
        simp
      rw [hzero]
      simp
    · have hmf := List.mem_filter.1 hbf
      have hbn : (b.name == a.name) = false := by
        have hq := hmf.2
        simp only [Bool.not_eq_eq_eq_not, Bool.not_true] at hq
        exact hq
      have hsucc : (a :: t).findIdx (fun x => b.name == x.name) =
          t.findIdx (fun x => b.name == x.name) + 1 := by
        simp only [List.findIdx_cons, hbn]
        rfl
      rw [hsucc]
      simpa using ih b hmf.1

theorem dedupApps_of_nodup (l : List App) (h : (l.map App.name).Nodup) : dedupApps l = l := by
  induction l with
  | nil => rfl
  | cons a t ih =>
    rw [dedupApps_cons]
    simp only [List.map_cons, List.nodup_cons] at h
    rw [ih h.2]
    congr 1
    rw [List.filter_eq_self]
    intro x hx
    have hxmem : x.name ∈ t.map App.name := List.mem_map.2 ⟨x, hx, rfl⟩
    simp only [Bool.not_eq_eq_eq_not, Bool.not_true, beq_eq_false_iff_ne, ne_eq]
    intro heq
    exact h.1 (heq ▸ hxmem)

theorem dedupApps_idem (l : List App) : dedupApps (dedupApps l) = dedupApps l :=
  dedupApps_of_nodup _ (nodup_names_dedupApps l)

theorem dedupApps_sublist (l : List App) : List.Sublist (dedupApps l) l := by
  induction l with
  | nil => exact List.Sublist.refl _
  | cons a t ih =>
    rw [dedupApps_cons]
    exact List.Sublist.cons₂ a ((List.filter_sublist _).trans ih)

/-! Unfolding lemmas for the loader and the action. -/

theorem loader_apps_eq (apps : List App) (s : OrchestratorState) :
    (loader apps s).1.apps = dedupApps apps := rfl

theorem loader_processes (apps : List App) (s : OrchestratorState) :
    (loader apps s).1.processes = buildRecord devEntryObject s.devProcesses := rfl

theorem loader_testProcesses (apps : List App) (s : OrchestratorState) :
    (loader apps s).1.testProcesses = buildRecord testEntryObject s.testProcesses := rfl

theorem loader_inspector (apps : List App) (s : OrchestratorState) :
    (loader apps s).1.inspectorRunning = s.inspectorFlag := rfl

theorem loader_state (apps : List App) (s : OrchestratorState) :
    (loader apps s).2 = s := rfl

theorem action_inspect_opened (s : OrchestratorState) :
    ((action s (some "inspect")).2).inspectorFlag = some true ∧
      (action s (some "inspect")).1 = Except.ok { success := true } := by
  by_cases h : s.inspectorFlag = some true <;> simp [action, h]

/-! The claims. -/

/-- C1: every reachable registry (dev and test, built by any sequence of
`upsert`/`remove` operations from the empty map) holds at most one handle per
app name, and every status listing the loader produces from any state lists
each app name at most once. -/
theorem claim_C1_registry_and_listing_unique (devOps : List (RegOp DevProcessEntry))
    (testOps : List (RegOp TestProcessEntry)) (apps : List App) (s : OrchestratorState) :
    ((applyOps devOps []).map Prod.fst).Nodup ∧
    ((applyOps testOps []).map Prod.fst).Nodup ∧
    (((loader apps s).1.processes).map Prod.fst).Nodup ∧
    (((loader apps s).1.testProcesses).map Prod.fst).Nodup := by
  refine ⟨nodup_keys_applyOps devOps [] (by simp), nodup_keys_applyOps testOps [] (by simp),
    ?_, ?_⟩
  · rw [loader_processes]
    exact nodup_keys_buildRecord _ _
  · rw [loader_testProcesses]
    exact nodup_keys_buildRecord _ _

/-- C3: the admin loader's projection deduplicates the app catalog by name:
for every catalog (duplicates included) the returned app list carries no
repeated name, and every catalog name still occurs. -/
theorem claim_C3_loader_dedups_by_name (apps : List App) (s : OrchestratorState) :
    (((loader apps s).1.apps).map App.name).Nodup ∧
    ∀ a ∈ apps, a.name ∈ ((loader apps s).1.apps).map App.name := by
  rw [loader_apps_eq]
  exact ⟨nodup_names_dedupApps apps, name_mem_dedupApps apps⟩

/-- C3 witness: on a catalog with a duplicated name the projection keeps the
name exactly once. -/
theorem claim_C3_witness :
    ((((loader [appOne, appTwo, appOneDup] sEmpty).1.apps).map App.name).Nodup) ∧
    appOneDup.name ∈ (((loader [appOne, appTwo, appOneDup] sEmpty).1.apps).map App.name) :=
  ⟨(claim_C3_loader_dedups_by_name [appOne, appTwo, appOneDup] sEmpty).1,
    (claim_C3_loader_dedups_by_name [appOne, appTwo, appOneDup] sEmpty).2 appOneDup
      (by decide)⟩

/-- C6: a status query leaves the shared state untouched: the state threaded
out of the loader is the input state, in particular both registries and the
allocator's used-port set are unchanged. -/
theorem claim_C6_loader_mutates_nothing (apps : List App) (s : OrchestratorState) :
    (loader apps s).2 = s ∧
    (loader apps s).2.devProcesses = s.devProcesses ∧
    (loader apps s).2.testProcesses = s.testProcesses ∧
    (loader apps s).2.usedPorts = s.usedPorts :=
  ⟨rfl, rfl, rfl, rfl⟩

/-- C9: the deduplication step keeps only first occurrences (each kept record
sits at the first index of its name), preserves relative order (the result is
a sublist of the input), and is idempotent. -/
theorem claim_C9_dedup_first_occurrence_idem (apps : List App) :
    List.Sublist (dedupApps apps) apps ∧
    (∀ b ∈ dedupApps apps, apps[apps.findIdx (fun x => b.name == x.name)]? = some b) ∧
    dedupApps (dedupApps apps) = dedupApps apps :=
  ⟨dedupApps_sublist apps, dedupApps_keeps_first apps, dedupApps_idem apps⟩

/-- C9 witness: concrete catalog with a duplicate; `appOne` is kept and is the
first occurrence of its name. -/
theorem claim_C9_witness :
    List.Sublist (dedupApps [appOne, appTwo, appOneDup]) [appOne, appTwo, appOneDup] ∧
    [appOne, appTwo,
        appOneDup][[appOne, appTwo, appOneDup].findIdx (fun x => appOne.name == x.name)]? =
      some appOne ∧
    dedupApps (dedupApps [appOne, appTwo, appOneDup]) = dedupApps [appOne, appTwo, appOneDup] :=
  ⟨(claim_C9_dedup_first_occurrence_idem [appOne, appTwo, appOneDup]).1,
    (claim_C9_dedup_first_occurrence_idem [appOne, appTwo, appOneDup]).2.1 appOne (by decide),
    (claim_C9_dedup_first_occurrence_idem [appOne, appTwo, appOneDup]).2.2⟩

/-- C4 counterexample: at a concrete state with one dev server, the dev
listing entry does not carry the field set `{port, pid, color, status}` the
claim asserts — the produced object has no `status` field. -/
theorem claim_C4_counterexample :
    (((loader [] sSample).1.processes).all
      (fun p => sameFieldSet (p.2.map Prod.fst) ["port", "pid", "color", "status"])) = false := by
  decide

/-- C4 (amended): each dev-server listing entry carries exactly the fields
`port`, `pid`, `color` (keyed by app name) — there is no `status` field — and
each test listing entry carries exactly `pid`, `exitCode`. -/
theorem claim_C4_listing_fields (apps : List App) (s : OrchestratorState) :
    (∀ p ∈ (loader apps s).1.processes, p.2.map Prod.fst = ["port", "pid", "color"]) ∧
    (∀ p ∈ (loader apps s).1.testProcesses, p.2.map Prod.fst = ["pid", "exitCode"]) := by
  constructor
  · rw [loader_processes]
    exact @buildRecord_values DevProcessEntry
      (fun v => v.map Prod.fst = ["port", "pid", "color"]) devEntryObject
      (fun e => rfl) s.devProcesses
  · rw [loader_testProcesses]
    exact @buildRecord_values TestProcessEntry
      (fun v => v.map Prod.fst = ["pid", "exitCode"]) testEntryObject
      (fun e => rfl) s.testProcesses

/-- C4 witness: the concrete listing entry for `app-a` carries exactly
`port`, `pid`, `color`. -/
theorem claim_C4_witness :
    (("app-a", devEntryObject devEntrySample) ∈ (loader [] sSample).1.processes) ∧
    (devEntryObject devEntrySample).map Prod.fst = ["port", "pid", "color"] :=
  ⟨by decide,
    (claim_C4_listing_fields [] sSample).1 ("app-a", devEntryObject devEntrySample) (by decide)⟩

/-- C5 counterexample: with `app-a`'s spawn mid-flight (pid still `none`) the
status query does not report it with status `starting`: the listing entry has
no `status` field at all and the admin view renders the app as `"running"`. -/
theorem claim_C5_counterexample :
    (loader [] sMidflight).1.processes = [("app-a", devEntryObject devEntryMidflight)] ∧
    ("status", JsValue.str "starting") ∉ devEntryObject devEntryMidflight ∧
    pingerStatus (loader [] sMidflight).1 "app-a" ≠ "starting" := by
  refine ⟨by decide, by decide, by decide⟩

/-- C5 (amended): a status query is a pure projection of in-memory state: an
app whose spawn is mid-flight is listed with its `pid` field `undefined`, the
admin view renders it as `"running"` (present — distinguishable from absent,
but not reported as `starting`), and the query changes no state. -/
theorem claim_C5_midflight_reported (apps : List App) (s : OrchestratorState) (name : String)
    (e : DevProcessEntry) (hmem : (name, e) ∈ s.devProcesses) (hpid : e.process.pid = none)
    (hnd : (s.devProcesses.map Prod.fst).Nodup) :
    (name, devEntryObject e) ∈ (loader apps s).1.processes ∧
    ("pid", JsValue.undefined) ∈ devEntryObject e ∧
    pingerStatus (loader apps s).1 name = "running" ∧
    (loader apps s).2 = s := by
  have hlist : (loader apps s).1.processes =
      s.devProcesses.map (fun q => (q.1, devEntryObject q.2)) := by
    rw [loader_processes]
    exact buildRecord_eq_map _ _ hnd
  have hmem' : (name, devEntryObject e) ∈ (loader apps s).1.processes := by
    rw [hlist]
    exact List.mem_map.2 ⟨(name, e), hmem, rfl⟩
  refine ⟨hmem', ?_, ?_, rfl⟩
  · simp [devEntryObject, hpid, jsOfOptNat]
  · have hany : ((loader apps s).1.processes).any (fun p => p.1 == name) = true :=
      List.any_eq_true.2 ⟨(name, devEntryObject e), hmem', by simp⟩
    simp [pingerStatus, hany]

/-- C5 witness: the amended statement evaluated at the concrete mid-flight
state. -/
theorem claim_C5_witness :
    (("app-a", devEntryObject devEntryMidflight) ∈ (loader [] sMidflight).1.processes) ∧
    ("pid", JsValue.undefined) ∈ devEntryObject devEntryMidflight ∧
    pingerStatus (loader [] sMidflight).1 "app-a" = "running" ∧
    (loader [] sMidflight).2 = sMidflight :=
  claim_C5_midflight_reported [] sMidflight "app-a" devEntryMidflight (by decide) (by decide)
    (by decide)

/-- C7: the listings enumerate the registries in insertion order: each listing
is exactly the registry's entry sequence (projected), its key sequence equals
the registry's key sequence, and a second query on the state threaded out of
the first returns the identical payload. -/
theorem claim_C7_listing_insertion_order (apps : List App) (s : OrchestratorState)
    (hdev : (s.devProcesses.map Prod.fst).Nodup)
    (htest : (s.testProcesses.map Prod.fst).Nodup) :
    (loader apps s).1.processes = s.devProcesses.map (fun q => (q.1, devEntryObject q.2)) ∧
    (loader apps s).1.testProcesses =
      s.testProcesses.map (fun q => (q.1, testEntryObject q.2)) ∧
    ((loader apps s).1.processes).map Prod.fst = s.devProcesses.map Prod.fst ∧
    ((loader apps s).1.testProcesses).map Prod.fst = s.testProcesses.map Prod.fst ∧
    loader apps ((loader apps s).2) = loader apps s := by
  have h1 : (loader apps s).1.processes =
      s.devProcesses.map (fun q => (q.1, devEntryObject q.2)) := by
    rw [loader_processes]
    exact buildRecord_eq_map _ _ hdev
  have h2 : (loader apps s).1.testProcesses =
      s.testProcesses.map (fun q => (q.1, testEntryObject q.2)) := by
    rw [loader_testProcesses]
    exact buildRecord_eq_map _ _ htest
  refine ⟨h1, h2, ?_, ?_, rfl⟩
  · rw [h1, List.map_map]
    exact List.map_congr_left fun q _ => rfl
  · rw [h2, List.map_map]
    exact List.map_congr_left fun q _ => rfl

/-- C7 witness: the insertion-order statement evaluated at the concrete
sample state. -/
theorem claim_C7_witness :
    (loader [] sSample).1.processes =
      sSample.devProcesses.map (fun q => (q.1, devEntryObject q.2)) ∧
    (loader [] sSample).1.testProcesses =
      sSample.testProcesses.map (fun q => (q.1, testEntryObject q.2)) ∧
    ((loader [] sSample).1.processes).map Prod.fst = sSample.devProcesses.map Prod.fst ∧
    ((loader [] sSample).1.testProcesses).map Prod.fst = sSample.testProcesses.map Prod.fst ∧
    loader [] ((loader [] sSample).2) = loader [] sSample :=
  claim_C7_listing_insertion_order [] sSample (by decide) (by decide)

/-- C2: redundant inspector toggles succeed: opening when already open and
closing when already closed (flag `false` or still `undefined`) return
`{ success: true }` with the state — in particular the external `open()` /
`close()` call counters — unchanged; and after two consecutive `inspect`
calls the second call succeeded without a further `open()` and the loader
reports the inspector as running. -/
theorem claim_C2_inspector_idempotent (apps : List App) (s : OrchestratorState) :
    (action { s with inspectorFlag := some true } (some "inspect") =
      (Except.ok { success := true }, { s with inspectorFlag := some true })) ∧
    (action { s with inspectorFlag := some false } (some "stop-inspect") =
      (Except.ok { success := true }, { s with inspectorFlag := some false })) ∧
    (action { s with inspectorFlag := none } (some "stop-inspect") =
      (Except.ok { success := true }, { s with inspectorFlag := none })) ∧
    ((action (action s (some "inspect")).2 (some "inspect")).1 =
      Except.ok { success := true }) ∧
    ((action (action s (some "inspect")).2 (some "inspect")).2 =
      (action s (some "inspect")).2) ∧
    ((loader apps
        (action (action s (some "inspect")).2 (some "inspect")).2).1.inspectorRunning =
      some true) := by
  have hflag := (action_inspect_opened s).1
  have hsecond : ∀ s1 : OrchestratorState, s1.inspectorFlag = some true →
      action s1 (some "inspect") = (Except.ok { success := true }, s1) := by
    intro s1 h1
    simp [action, h1]
  have H := hsecond ((action s (some "inspect")).2) hflag
  refine ⟨?_, ?_, ?_, ?_, ?_, ?_⟩
  · simp [action]
  · simp [action]
  · simp [action]
  · rw [H]
  · rw [H]
  · rw [loader_inspector, H]
    exact hflag

/-- C8: any form intent other than `inspect` / `stop-inspect` (a missing
intent included) makes the action throw `Unknown intent: ...` while changing
nothing: the state coming out of the call is the state that went in. -/
theorem claim_C8_unknown_intent (s : OrchestratorState) (intent : Option String)
    (h1 : intent ≠ some "inspect") (h2 : intent ≠ some "stop-inspect") :
    action s intent = (Except.error ("Unknown intent: " ++ jsToString intent), s) := by
  simp [action, h1, h2]

/-- C8 witness: a missing intent (`formData.get('intent')` returned `null`)
throws and leaves the concrete sample state untouched. -/
theorem claim_C8_witness :
    action sSample none = (Except.error ("Unknown intent: " ++ jsToString none), sSample) :=
  claim_C8_unknown_intent sSample none (by decide) (by decide)

end KcdAdmin

namespace ClientHints

theorem themeTransform_spec (v : Option String) :
    (themeHint.transform v = "dark" ↔ v = some "dark") ∧
    (themeHint.transform v = "dark" ∨ themeHint.transform v = "light") := by
  by_cases h : v = some "dark" <;> simp [themeHint, h]

theorem reducedMotionTransform_spec (v : Option String) :
    (reducedMotionHint.transform v = "reduce" ↔ v = some "reduce") ∧
    (reducedMotionHint.transform v = "reduce" ∨
      reducedMotionHint.transform v = "no-preference") := by
  by_cases h : v = some "reduce" <;> simp [reducedMotionHint, h]

/-- C10: `getHints` is total on the two defined hints — it never throws, for
any cookie string — and range-restricted: the `theme` value is `"dark"`
exactly when the extracted theme cookie value is `"dark"` and `"light"`
otherwise, and `reducedMotion` is `"reduce"` exactly when the extracted
cookie value is `"reduce"` and `"no-preference"` otherwise. -/
theorem claim_C10_getHints_total_and_ranged (cookieString : String) :
    getHints cookieString =
      Except.ok
        [("theme", themeHint.transform (cookieLookup cookieString themeHint.cookieName)),
          ("reducedMotion",
            reducedMotionHint.transform
              (cookieLookup cookieString reducedMotionHint.cookieName))] ∧
    (themeHint.transform (cookieLookup cookieString themeHint.cookieName) = "dark" ↔
      cookieLookup cookieString themeHint.cookieName = some "dark") ∧
    (themeHint.transform (cookieLookup cookieString themeHint.cookieName) = "dark" ∨
      themeHint.transform (cookieLookup cookieString themeHint.cookieName) = "light") ∧
    (reducedMotionHint.transform (cookieLookup cookieString reducedMotionHint.cookieName) =
        "reduce" ↔
      cookieLookup cookieString reducedMotionHint.cookieName = some "reduce") ∧
    (reducedMotionHint.transform (cookieLookup cookieString reducedMotionHint.cookieName) =
        "reduce" ∨
      reducedMotionHint.transform (cookieLookup cookieString reducedMotionHint.cookieName) =
        "no-preference") := by
  refine ⟨?_, (themeTransform_spec _).1, (themeTransform_spec _).2,
    (reducedMotionTransform_spec _).1, (reducedMotionTransform_spec _).2⟩
  rfl

end ClientHints
